import Mathlib

/-!
Verification of the duty-cycle bucket aggregator from
`master/buildbot/status/web/slaves.py`.

Timestamps and durations are embedded as rationals; the Python code operates
on numeric timestamps with exact `-`, `*`, `+` and comparisons, which the
rational embedding reproduces.  `add_to_buckets` mutates `buckets[n]` for
`n in range(num_buckets)`; callers always pass a list of length
`num_buckets`, and the embedding updates exactly the indices below
`num_buckets`, leaving any others unchanged.
-/

set_option maxHeartbeats 1000000

namespace Buildbot

/-- The half-open in-bucket test `between(a, n, b)` from slaves.py:
truthy iff `a <= n` and `n < b` (the Python function returns `True` or
`None`; only its truthiness is ever used). -/
def between (a n b : ℚ) : Prop := a ≤ n ∧ n < b

instance (a n b : ℚ) : Decidable (between a n b) :=
  inferInstanceAs (Decidable (a ≤ n ∧ n < b))

/-- `bucket_start = now - (n + 1) * bucket_size` for bucket `n`. -/
def bucket_start (now bucket_size : ℚ) (n : ℕ) : ℚ := now - (n + 1) * bucket_size

/-- `bucket_end = now - n * bucket_size` for bucket `n`. -/
def bucket_end (now bucket_size : ℚ) (n : ℕ) : ℚ := now - n * bucket_size

/-- The amount one iteration of the loop body of `add_to_buckets` adds to
`buckets[n]` for the interval `(s, e)`: the skip test
`end_before_bucket or start_after_bucket`, then the four classification
cases in source order, else nothing. -/
def bucket_contribution (bucket_size s e now : ℚ) (n : ℕ) : ℚ :=
  if e < bucket_start now bucket_size n ∨ s > bucket_end now bucket_size n then 0
  else if between (bucket_start now bucket_size n) s (bucket_end now bucket_size n) ∧
          between (bucket_start now bucket_size n) e (bucket_end now bucket_size n) then e - s
  else if between (bucket_start now bucket_size n) s (bucket_end now bucket_size n) then
    bucket_end now bucket_size n - s
  else if between (bucket_start now bucket_size n) e (bucket_end now bucket_size n) then
    e - bucket_start now bucket_size n
  else if s < bucket_start now bucket_size n ∧ e > bucket_end now bucket_size n then 1
  else 0

/-- The branch of `add_to_buckets` in which the pair passed the skip test
but none of the four classification cases fired, so nothing is added. -/
def no_case_fires (bucket_size s e now : ℚ) (n : ℕ) : Prop :=
  ¬(e < bucket_start now bucket_size n ∨ s > bucket_end now bucket_size n) ∧
  ¬(between (bucket_start now bucket_size n) s (bucket_end now bucket_size n) ∧
    between (bucket_start now bucket_size n) e (bucket_end now bucket_size n)) ∧
  ¬between (bucket_start now bucket_size n) s (bucket_end now bucket_size n) ∧
  ¬between (bucket_start now bucket_size n) e (bucket_end now bucket_size n) ∧
  ¬(s < bucket_start now bucket_size n ∧ e > bucket_end now bucket_size n)

instance (bucket_size s e now : ℚ) (n : ℕ) : Decidable (no_case_fires bucket_size s e now n) :=
  inferInstanceAs (Decidable (¬_ ∧ ¬_ ∧ ¬_ ∧ ¬_ ∧ ¬_))

/-- Recursion over the bucket list carrying the absolute bucket index,
embedding `for n in range(num_buckets): buckets[n] += ...`. -/
def add_to_buckets_go (bucket_size s e now : ℚ) (num_buckets : ℕ) :
    ℕ → List ℚ → List ℚ
  | _, [] => []
  | n, b :: bs =>
    (if n < num_buckets then b + bucket_contribution bucket_size s e now n else b) ::
      add_to_buckets_go bucket_size s e now num_buckets (n + 1) bs

/-- `add_to_buckets(num_buckets, buckets, bucket_size, start, end, now)`:
adds each bucket's classified share of the interval `(s, e)` into the
accumulator list. -/
def add_to_buckets (num_buckets : ℕ) (buckets : List ℚ) (bucket_size s e now : ℚ) :
    List ℚ :=
  add_to_buckets_go bucket_size s e now num_buckets 0 buckets

/-- Sweeping a whole interval list through `add_to_buckets`, with no early
termination (the "current builds" loop of `determine_duty_cycle`, and the
brute-force reference sweep). -/
def full_sweep (num_buckets : ℕ) (bucket_size now : ℚ) (buckets : List ℚ)
    (intervals : List (ℚ × ℚ)) : List ℚ :=
  intervals.foldl (fun b i => add_to_buckets num_buckets b bucket_size i.1 i.2 now) buckets

/-- `bucket_reach = now - num_buckets * bucket_size`: the start of the
oldest bucket. -/
def bucket_reach (num_buckets : ℕ) (bucket_size now : ℚ) : ℚ :=
  now - num_buckets * bucket_size

/-- The finished-builds loop of `determine_duty_cycle`: sweep intervals in
order, but `break` at the first one whose `end` is before `bucket_reach`. -/
def sweep_historical (num_buckets : ℕ) (bucket_size now : ℚ) :
    List ℚ → List (ℚ × ℚ) → List ℚ
  | buckets, [] => buckets
  | buckets, (s, e) :: rest =>
    if e < bucket_reach num_buckets bucket_size now then buckets
    else sweep_historical num_buckets bucket_size now
      (add_to_buckets num_buckets buckets bucket_size s e now) rest

/-- The bucket totals of `determine_duty_cycle` just before normalization:
zero-initialized accumulators, the current builds swept in full, then the
finished builds swept with the early-termination break. -/
def duty_totals (num_buckets : ℕ) (bucket_size now : ℚ)
    (current historical : List (ℚ × ℚ)) : List ℚ :=
  sweep_historical num_buckets bucket_size now
    (full_sweep num_buckets bucket_size now (List.replicate num_buckets 0) current)
    historical

/-- `determine_duty_cycle`, with the builder plumbing abstracted to the two
interval lists it extracts: current builds, then finished builds (with the
break), then `buckets[n] /= bucket_size` on each entry. -/
def determine_duty_cycle (num_buckets : ℕ) (bucket_size now : ℚ)
    (current historical : List (ℚ × ℚ)) : List ℚ :=
  (duty_totals num_buckets bucket_size now current historical).map
    (fun b => b / bucket_size)

/-- Aggregation of a plain interval list from zeroed accumulators (the
`aggregate(intervals, config)` contract of the spec, as the code realizes
it through repeated `add_to_buckets`). -/
def aggregate (num_buckets : ℕ) (bucket_size now : ℚ)
    (intervals : List (ℚ × ℚ)) : List ℚ :=
  full_sweep num_buckets bucket_size now (List.replicate num_buckets 0) intervals

theorem length_add_to_buckets_go (bucket_size s e now : ℚ) (num_buckets : ℕ) :
    ∀ (n : ℕ) (b : List ℚ),
      (add_to_buckets_go bucket_size s e now num_buckets n b).length = b.length
  | _, [] => rfl
  | n, _ :: bs => by
    simp [add_to_buckets_go, length_add_to_buckets_go bucket_size s e now num_buckets (n + 1) bs]

theorem length_add_to_buckets (num_buckets : ℕ) (b : List ℚ) (bucket_size s e now : ℚ) :
    (add_to_buckets num_buckets b bucket_size s e now).length = b.length :=
  length_add_to_buckets_go bucket_size s e now num_buckets 0 b

theorem length_full_sweep (num_buckets : ℕ) (bucket_size now : ℚ)
    (intervals : List (ℚ × ℚ)) : ∀ b : List ℚ,
      (full_sweep num_buckets bucket_size now b intervals).length = b.length := by
  induction intervals with
  | nil => intro b; rfl
  | cons i rest ih =>
    intro b
    simp only [full_sweep, List.foldl_cons]
    rw [show (rest.foldl (fun b i => add_to_buckets num_buckets b bucket_size i.1 i.2 now)
        (add_to_buckets num_buckets b bucket_size i.1 i.2 now)) =
      full_sweep num_buckets bucket_size now
        (add_to_buckets num_buckets b bucket_size i.1 i.2 now) rest from rfl]
    rw [ih, length_add_to_buckets]

theorem length_sweep_historical (num_buckets : ℕ) (bucket_size now : ℚ)
    (intervals : List (ℚ × ℚ)) : ∀ b : List ℚ,
      (sweep_historical num_buckets bucket_size now b intervals).length = b.length := by
  induction intervals with
  | nil => intro b; rfl
  | cons i rest ih =>
    intro b
    obtain ⟨s, e⟩ := i
    simp only [sweep_historical]
    split
    · rfl
    · rw [ih, length_add_to_buckets]

theorem length_duty_totals (num_buckets : ℕ) (bucket_size now : ℚ)
    (current historical : List (ℚ × ℚ)) :
    (duty_totals num_buckets bucket_size now current historical).length = num_buckets := by
  unfold duty_totals
  rw [length_sweep_historical, length_full_sweep, List.length_replicate]

theorem getD_add_to_buckets_go (bucket_size s e now : ℚ) (num_buckets : ℕ) :
    ∀ (b : List ℚ) (n k : ℕ),
      (add_to_buckets_go bucket_size s e now num_buckets n b).getD k 0 =
        b.getD k 0 + if k < b.length ∧ n + k < num_buckets then
          bucket_contribution bucket_size s e now (n + k) else 0 := by
  intro b
  induction b with
  | nil => intro n k; simp [add_to_buckets_go]
  | cons x bs ih =>
    intro n k
    cases k with
    | zero =>
      simp only [add_to_buckets_go, List.getD_cons_zero, List.length_cons, Nat.add_zero]
      by_cases h : n < num_buckets
      · rw [if_pos h, if_pos ⟨Nat.succ_pos _, h⟩]
      · rw [if_neg h, if_neg (fun hc => h hc.2), add_zero]
    | succ k =>
      simp only [add_to_buckets_go, List.getD_cons_succ, List.length_cons]
      rw [ih (n + 1) k]
      have h1 : n + 1 + k = n + (k + 1) := by omega
      rw [h1]
      have h2 : (k < bs.length ∧ n + (k + 1) < num_buckets) ↔
          (k + 1 < bs.length + 1 ∧ n + (k + 1) < num_buckets) := by omega
      rw [if_congr h2 rfl rfl]

theorem getD_add_to_buckets (num_buckets : ℕ) (b : List ℚ) (bucket_size s e now : ℚ)
    (k : ℕ) :
    (add_to_buckets num_buckets b bucket_size s e now).getD k 0 =
      b.getD k 0 + if k < b.length ∧ k < num_buckets then
        bucket_contribution bucket_size s e now k else 0 := by
  unfold add_to_buckets
  rw [getD_add_to_buckets_go]
  simp

theorem getD_full_sweep (num_buckets : ℕ) (bucket_size now : ℚ)
    (intervals : List (ℚ × ℚ)) : ∀ (b : List ℚ) (k : ℕ),
      (full_sweep num_buckets bucket_size now b intervals).getD k 0 =
        b.getD k 0 + if k < b.length ∧ k < num_buckets then
          (intervals.map (fun i => bucket_contribution bucket_size i.1 i.2 now k)).sum
        else 0 := by
  induction intervals with
  | nil => intro b k; simp [full_sweep]
  | cons i rest ih =>
    intro b k
    rw [show full_sweep num_buckets bucket_size now b (i :: rest) =
      full_sweep num_buckets bucket_size now
        (add_to_buckets num_buckets b bucket_size i.1 i.2 now) rest from rfl]
    rw [ih, getD_add_to_buckets, length_add_to_buckets]
    by_cases h : k < b.length ∧ k < num_buckets
    · rw [if_pos h, if_pos h, if_pos h, List.map_cons, List.sum_cons]
      ring
    · rw [if_neg h, if_neg h, if_neg h]
      ring

theorem getD_aggregate (num_buckets : ℕ) (bucket_size now : ℚ)
    (intervals : List (ℚ × ℚ)) (k : ℕ) (hk : k < num_buckets) :
    (aggregate num_buckets bucket_size now intervals).getD k 0 =
      (intervals.map (fun i => bucket_contribution bucket_size i.1 i.2 now k)).sum := by
  unfold aggregate
  rw [getD_full_sweep]
  rw [if_pos ⟨by simpa using hk, hk⟩]
  simp [List.getD_eq_getElem?_getD, List.getElem?_replicate, hk]

theorem length_aggregate (num_buckets : ℕ) (bucket_size now : ℚ) (l : List (ℚ × ℚ)) :
    (aggregate num_buckets bucket_size now l).length = num_buckets := by
  unfold aggregate
  rw [length_full_sweep, List.length_replicate]

theorem bucket_contribution_nonneg (bucket_size s e now : ℚ) (n : ℕ) (hse : s ≤ e) :
    0 ≤ bucket_contribution bucket_size s e now n := by
  unfold bucket_contribution
  split_ifs with h1 h2 h3 h4 h5
  · exact le_refl 0
  · linarith
  · have := h3.2
    linarith
  · have := h4.1
    linarith
  · norm_num
  · exact le_refl 0

theorem bucket_contribution_zero_of_old (num_buckets : ℕ) (bucket_size s e now : ℚ)
    (n : ℕ) (hsz : 0 < bucket_size) (hn : n < num_buckets)
    (he : e < bucket_reach num_buckets bucket_size now) :
    bucket_contribution bucket_size s e now n = 0 := by
  have hlt : e < bucket_start now bucket_size n := by
    unfold bucket_start
    unfold bucket_reach at he
    have h1 : ((n : ℚ) + 1) ≤ (num_buckets : ℚ) := by exact_mod_cast hn
    have h2 : ((n : ℚ) + 1) * bucket_size ≤ (num_buckets : ℚ) * bucket_size :=
      mul_le_mul_of_nonneg_right h1 hsz.le
    linarith
  unfold bucket_contribution
  rw [if_pos (Or.inl hlt)]

theorem bucket_contribution_degenerate (bucket_size t now : ℚ) (hsz : 0 < bucket_size)
    (n : ℕ) : bucket_contribution bucket_size t t now n = 0 := by
  unfold bucket_contribution bucket_start bucket_end between
  split_ifs with h1 h2 h3 h4
  · rfl
  · ring
  · exact absurd ⟨h3, h3⟩ h2
  · exfalso
    obtain ⟨ha, hb⟩ := h4
    linarith
  · rfl

theorem add_to_buckets_go_eq_self (bucket_size s e now : ℚ) (num_buckets : ℕ)
    (h : ∀ m, m < num_buckets → bucket_contribution bucket_size s e now m = 0) :
    ∀ (b : List ℚ) (n : ℕ), add_to_buckets_go bucket_size s e now num_buckets n b = b := by
  intro b
  induction b with
  | nil => intro n; rfl
  | cons x bs ih =>
    intro n
    simp only [add_to_buckets_go, ih]
    by_cases hn : n < num_buckets
    · rw [if_pos hn, h n hn, add_zero]
    · rw [if_neg hn]

theorem add_to_buckets_eq_self (num_buckets : ℕ) (b : List ℚ) (bucket_size s e now : ℚ)
    (h : ∀ m, m < num_buckets → bucket_contribution bucket_size s e now m = 0) :
    add_to_buckets num_buckets b bucket_size s e now = b :=
  add_to_buckets_go_eq_self bucket_size s e now num_buckets h b 0

theorem full_sweep_eq_self (num_buckets : ℕ) (bucket_size now : ℚ)
    (hsz : 0 < bucket_size) (l : List (ℚ × ℚ))
    (hl : ∀ i ∈ l, i.2 < bucket_reach num_buckets bucket_size now) :
    ∀ b, full_sweep num_buckets bucket_size now b l = b := by
  induction l with
  | nil => intro b; rfl
  | cons i rest ih =>
    intro b
    rw [show full_sweep num_buckets bucket_size now b (i :: rest) =
      full_sweep num_buckets bucket_size now
        (add_to_buckets num_buckets b bucket_size i.1 i.2 now) rest from rfl]
    rw [add_to_buckets_eq_self num_buckets b bucket_size i.1 i.2 now
      (fun m hm => bucket_contribution_zero_of_old num_buckets bucket_size i.1 i.2 now m
        hsz hm (hl i (List.mem_cons_self i rest)))]
    exact ih (fun j hj => hl j (List.mem_cons_of_mem i hj)) b

theorem bucket_contribution_exact (bucket_size now : ℚ) (hsz : 0 < bucket_size) (n m : ℕ) :
    bucket_contribution bucket_size (bucket_start now bucket_size n)
      (bucket_end now bucket_size n) now m = if m = n then bucket_size else 0 := by
  rcases Nat.lt_trichotomy m n with hmn | heq | hmn
  · rcases Nat.lt_or_ge (m + 1) n with h2 | h2
    · -- bucket m is too recent: the interval's end is before bucket m's start
      have hc : ((m : ℚ) + 1) < (n : ℚ) := by exact_mod_cast h2
      have hp : ((m : ℚ) + 1) * bucket_size < (n : ℚ) * bucket_size :=
        mul_lt_mul_of_pos_right hc hsz
      rw [if_neg (by omega : ¬ m = n)]
      unfold bucket_contribution bucket_start bucket_end between
      split_ifs with h1 h2 h3 h4 h5
      · rfl
      all_goals exfalso; push_neg at h1; linarith [h1.1]
    · -- bucket m is the one just after: only the end is in it, zero-length add
      have h3 : m + 1 = n := by omega
      have e2 : ((m : ℚ) + 1) * bucket_size = (n : ℚ) * bucket_size := by
        have hc : ((m : ℚ) + 1) = (n : ℚ) := by exact_mod_cast h3
        rw [hc]
      rw [if_neg (by omega : ¬ m = n)]
      unfold bucket_contribution bucket_start bucket_end between
      split_ifs with h1 h2 h3 h4 h5
      · rfl
      · exfalso; linarith [h2.1.1]
      · exfalso; linarith [h3.1]
      · linarith
      · exfalso; linarith [h5.2]
      · rfl
  · -- the bucket exactly matching the interval: only the start is in it, adds size
    subst heq
    rw [if_pos rfl]
    unfold bucket_contribution bucket_start bucket_end between
    split_ifs with h1 h2 h3 h4 h5
    · exfalso
      rcases h1 with h | h <;> linarith
    · exfalso; linarith [h2.2.2]
    · ring
    · exfalso
      exact h3 ⟨by linarith, by linarith⟩
    · exfalso
      exact h3 ⟨by linarith, by linarith⟩
    · exfalso
      exact h3 ⟨by linarith, by linarith⟩
  · rcases Nat.lt_or_ge (n + 1) m with h2 | h2
    · -- bucket m is too old: the interval's start is after bucket m's end
      have hc : ((n : ℚ) + 1) < (m : ℚ) := by exact_mod_cast h2
      have hp : ((n : ℚ) + 1) * bucket_size < (m : ℚ) * bucket_size :=
        mul_lt_mul_of_pos_right hc hsz
      rw [if_neg (by omega : ¬ m = n)]
      unfold bucket_contribution bucket_start bucket_end between
      split_ifs with h1 h2 h3 h4 h5
      · rfl
      all_goals exfalso; push_neg at h1; linarith [h1.2]
    · -- bucket m is the one just before: the fall-through branch, adds nothing
      have h3 : m = n + 1 := by omega
      have e2 : (m : ℚ) * bucket_size = ((n : ℚ) + 1) * bucket_size := by
        have hc : (m : ℚ) = (n : ℚ) + 1 := by exact_mod_cast h3
        rw [hc]
      rw [if_neg (by omega : ¬ m = n)]
      unfold bucket_contribution bucket_start bucket_end between
      split_ifs with h1 h2 h3 h4 h5
      · rfl
      · exfalso; linarith [h2.1.2]
      · exfalso; linarith [h3.2]
      · exfalso; linarith [h4.2]
      · exfalso; linarith [h5.1]
      · rfl

/-- C1: the claim states that in the whole-bucket span case the aggregator adds
the bucket's full span `size`, so a single interval spanning all buckets yields
`size` in every bucket.  The code instead executes `buckets[n] += 1`: with two
buckets of size 10 ending at `now = 20`, the interval `(-5, 25)` spans both
buckets entirely, yet every total is the literal 1, not 10. -/
theorem C1_span_case_adds_unit_not_size :
    aggregate 2 10 20 [(-5, 25)] = [1, 1] ∧
      aggregate 2 10 20 [(-5, 25)] ≠ List.replicate 2 (10 : ℚ) := by
  have h : aggregate 2 10 20 [(-5, 25)] = [1, 1] := by
    norm_num [aggregate, full_sweep, add_to_buckets, add_to_buckets_go,
      bucket_contribution, bucket_start, bucket_end, between]
  refine ⟨h, ?_⟩
  rw [h]
  norm_num [List.replicate]

/-- C2: the claim states that aggregating the abutting halves `[a,m)` and
`[m,b)` and summing element-wise equals aggregating `[a,b)`.  With one bucket
`[0,10)` (size 10, now 10), the interval `(-5, 15)` hits the span case and
yields `[1]`, while its halves `(-5, 5)` and `(5, 15)` yield `[5]` and `[5]`,
whose element-wise sum `[10]` differs. -/
theorem C2_split_additivity_violated :
    ((-5 : ℚ) ≤ 5 ∧ (5 : ℚ) ≤ 15) ∧
    aggregate 1 10 10 [(-5, 15)] = [1] ∧
    aggregate 1 10 10 [(-5, 5)] = [5] ∧
    aggregate 1 10 10 [(5, 15)] = [5] ∧
    List.zipWith (fun a b => a + b) (aggregate 1 10 10 [(-5, 5)])
        (aggregate 1 10 10 [(5, 15)]) ≠
      aggregate 1 10 10 [(-5, 15)] := by
  refine ⟨⟨by norm_num, by norm_num⟩, ?_, ?_, ?_, ?_⟩ <;>
    norm_num [aggregate, full_sweep, add_to_buckets, add_to_buckets_go,
      bucket_contribution, bucket_start, bucket_end, between, List.zipWith]

/-- C3: for historical intervals sorted in non-increasing order of `end` and a
positive bucket size, the sweep that breaks at the first interval whose `end`
is older than `bucket_reach = now - count * size` produces exactly the totals
of the full unterminated sweep, from any starting accumulator. -/
theorem C3_early_termination_equals_full_sweep (num_buckets : ℕ)
    (bucket_size now : ℚ) (hsz : 0 < bucket_size) (b : List ℚ)
    (historical : List (ℚ × ℚ))
    (hsorted : historical.Pairwise (fun x y => y.2 ≤ x.2)) :
    sweep_historical num_buckets bucket_size now b historical =
      full_sweep num_buckets bucket_size now b historical := by
  induction historical generalizing b with
  | nil => rfl
  | cons i rest ih =>
    obtain ⟨s, e⟩ := i
    rw [List.pairwise_cons] at hsorted
    obtain ⟨hhead, htail⟩ := hsorted
    by_cases hbreak : e < bucket_reach num_buckets bucket_size now
    · simp only [sweep_historical]
      rw [if_pos hbreak]
      rw [show full_sweep num_buckets bucket_size now b ((s, e) :: rest) =
        full_sweep num_buckets bucket_size now
          (add_to_buckets num_buckets b bucket_size s e now) rest from rfl]
      rw [add_to_buckets_eq_self num_buckets b bucket_size s e now
        (fun m hm => bucket_contribution_zero_of_old num_buckets bucket_size s e now m
          hsz hm hbreak)]
      exact (full_sweep_eq_self num_buckets bucket_size now hsz rest
        (fun j hj => lt_of_le_of_lt (hhead j hj) hbreak) b).symm
    · simp only [sweep_historical]
      rw [if_neg hbreak]
      rw [ih _ htail]
      rfl

theorem C3_witness :
    sweep_historical 1 10 100 [0] [(80, 95), (0, 5)] =
      full_sweep 1 10 100 [0] [(80, 95), (0, 5)] :=
  C3_early_termination_equals_full_sweep 1 10 100 (by norm_num) [0] [(80, 95), (0, 5)]
    (by norm_num [List.pairwise_cons])

/-- C4: each entry handed to the consumer is exactly the corresponding bucket
total divided by `bucket_size`, with no rounding and no clamping: the final
loop of `determine_duty_cycle` just executes `buckets[n] /= bucket_size`. -/
theorem C4_duty_cycle_is_exact_division (num_buckets : ℕ) (bucket_size now : ℚ)
    (current historical : List (ℚ × ℚ)) (k : ℕ) (hk : k < num_buckets) :
    (determine_duty_cycle num_buckets bucket_size now current historical).getD k 0 =
      (duty_totals num_buckets bucket_size now current historical).getD k 0 /
        bucket_size := by
  unfold determine_duty_cycle
  rw [List.getD_eq_getElem?_getD, List.getElem?_map, List.getD_eq_getElem?_getD]
  cases hx : (duty_totals num_buckets bucket_size now current historical)[k]? with
  | none => simp
  | some x => simp

theorem C4_witness :
    (determine_duty_cycle 1 10 100 [(95, 100)] []).getD 0 0 =
      (duty_totals 1 10 100 [(95, 100)] []).getD 0 0 / 10 :=
  C4_duty_cycle_is_exact_division 1 10 100 [(95, 100)] [] 0 (by norm_num)

/-- C5: the claim states that for a well-formed interval not excluded by the
step-3 disjointness test, exactly one of the four classification cases fires,
the fall-through being unreachable.  With bucket 0 = `[0, 10)` (size 10,
now 10) and the well-formed interval `(-5, 10)` — which covers the whole
bucket — the pair passes the disjointness test, yet no case fires and the
code adds 0, silently dropping the overlap. -/
theorem C5_fallthrough_reached_on_wellformed_input :
    ((-5 : ℚ) ≤ 10) ∧ no_case_fires 10 (-5) 10 10 0 ∧
      bucket_contribution 10 (-5) 10 10 0 = 0 := by
  refine ⟨by norm_num, ?_, ?_⟩
  · norm_num [no_case_fires, bucket_start, bucket_end, between]
  · norm_num [bucket_contribution, bucket_start, bucket_end, between]

/-- C6 counterexample: the §4.1 input constraints do not require
`start <= end`, but the malformed interval `(8, 2)` lands in the both-in-bucket
case of bucket `[0, 10)` and contributes `end - start = -6`, a negative
total. -/
theorem C6_counterexample_negative_total :
    aggregate 1 10 10 [(8, 2)] = [-6] ∧
      (aggregate 1 10 10 [(8, 2)]).getD 0 0 < 0 := by
  have h : aggregate 1 10 10 [(8, 2)] = [-6] := by
    norm_num [aggregate, full_sweep, add_to_buckets, add_to_buckets_go,
      bucket_contribution, bucket_start, bucket_end, between]
  refine ⟨h, ?_⟩
  rw [h]
  norm_num [List.getD_cons_zero]

/-- C6 amended: restricted to well-formed intervals (`start <= end`), every
entry of the returned totals is non-negative, for every bucket
configuration. -/
theorem C6_amended_totals_nonneg (num_buckets : ℕ) (bucket_size now : ℚ)
    (l : List (ℚ × ℚ)) (h : ∀ i ∈ l, i.1 ≤ i.2) (k : ℕ) :
    0 ≤ (aggregate num_buckets bucket_size now l).getD k 0 := by
  by_cases hk : k < num_buckets
  · rw [getD_aggregate num_buckets bucket_size now l k hk]
    apply List.sum_nonneg
    intro x hx
    simp only [List.mem_map] at hx
    obtain ⟨i, hi, rfl⟩ := hx
    exact bucket_contribution_nonneg bucket_size i.1 i.2 now k (h i hi)
  · rw [List.getD_eq_default _ _ (by rw [length_aggregate]; omega)]

theorem C6_amended_witness : 0 ≤ (aggregate 1 10 10 [(2, 8)]).getD 0 0 :=
  C6_amended_totals_nonneg 1 10 10 [(2, 8)]
    (by intro i hi; rw [List.mem_singleton] at hi; rw [hi]; norm_num) 0

/-- C7: a single interval exactly equal to bucket `n`'s half-open span
`[now - (n+1)*size, now - n*size)` contributes `size` to bucket `n` (via the
only-start-in-bucket case) and 0 to every other bucket. -/
theorem C7_exact_bucket_span (num_buckets n : ℕ) (bucket_size now : ℚ)
    (hsz : 0 < bucket_size) (hn : n < num_buckets) (k : ℕ) :
    (aggregate num_buckets bucket_size now
        [(bucket_start now bucket_size n, bucket_end now bucket_size n)]).getD k 0 =
      if k = n then bucket_size else 0 := by
  by_cases hk : k < num_buckets
  · rw [getD_aggregate num_buckets bucket_size now _ k hk]
    simp only [List.map_cons, List.map_nil, List.sum_cons, List.sum_nil, add_zero]
    exact bucket_contribution_exact bucket_size now hsz n k
  · rw [List.getD_eq_default _ _ (by rw [length_aggregate]; omega),
      if_neg (by omega : ¬ k = n)]

theorem C7_witness :
    (aggregate 2 10 100 [(bucket_start 100 10 1, bucket_end 100 10 1)]).getD 1 0 =
      if 1 = 1 then 10 else 0 :=
  C7_exact_bucket_span 2 1 10 100 (by norm_num) (by norm_num) 1

/-- C8: a degenerate interval with `start == end` leaves every bucket total
exactly as it would be without that interval, wherever it occurs in the input
list, for any positive bucket size. -/
theorem C8_degenerate_interval_no_effect (num_buckets : ℕ) (bucket_size now t : ℚ)
    (hsz : 0 < bucket_size) (b : List ℚ) (l1 l2 : List (ℚ × ℚ)) :
    full_sweep num_buckets bucket_size now b (l1 ++ (t, t) :: l2) =
      full_sweep num_buckets bucket_size now b (l1 ++ l2) := by
  unfold full_sweep
  rw [List.foldl_append, List.foldl_append, List.foldl_cons]
  rw [add_to_buckets_eq_self num_buckets _ bucket_size t t now
    (fun m hm => bucket_contribution_degenerate bucket_size t now hsz m)]

theorem C8_witness :
    full_sweep 1 10 100 [0] ([] ++ (5, 5) :: []) = full_sweep 1 10 100 [0] ([] ++ []) :=
  C8_degenerate_interval_no_effect 1 10 100 5 (by norm_num) [0] [] []

/-- C9 counterexample: invoked with the invalid configuration `count = 0`, the
aggregator performs no validation and raises no error: it runs to completion
and hands the consumer an empty totals sequence. -/
theorem C9_counterexample_no_failfast :
    determine_duty_cycle 0 86400 1000000 [(0, 5)] [(3, 4)] = [] ∧
      (determine_duty_cycle 0 86400 1000000 [(0, 5)] [(3, 4)]).length = 0 := by
  have h : determine_duty_cycle 0 86400 1000000 [(0, 5)] [(3, 4)] = [] := by
    norm_num [determine_duty_cycle, duty_totals, sweep_historical, bucket_reach,
      full_sweep, add_to_buckets, add_to_buckets_go, List.replicate]
  exact ⟨h, by rw [h]; rfl⟩

/-- C9 amended: the code performs no configuration validation at its entry
point; with `count = 0` it silently returns the empty duty-cycle sequence,
whatever the other inputs are. -/
theorem C9_amended_returns_empty (bucket_size now : ℚ)
    (current historical : List (ℚ × ℚ)) :
    determine_duty_cycle 0 bucket_size now current historical = [] := by
  unfold determine_duty_cycle
  have h : duty_totals 0 bucket_size now current historical = [] :=
    List.eq_nil_of_length_eq_zero (length_duty_totals 0 bucket_size now current historical)
  rw [h]
  rfl

/-- C10: appending one extra well-formed interval to a list of well-formed
intervals can only increase each bucket total: every per-bucket contribution
of a well-formed interval is non-negative. -/
theorem C10_totals_monotone_under_extension (num_buckets : ℕ) (bucket_size now : ℚ)
    (l : List (ℚ × ℚ)) (hl : ∀ i ∈ l, i.1 ≤ i.2) (s e : ℚ) (hse : s ≤ e) (k : ℕ) :
    (aggregate num_buckets bucket_size now l).getD k 0 ≤
      (aggregate num_buckets bucket_size now (l ++ [(s, e)])).getD k 0 := by
  by_cases hk : k < num_buckets
  · rw [getD_aggregate num_buckets bucket_size now l k hk,
      getD_aggregate num_buckets bucket_size now (l ++ [(s, e)]) k hk]
    rw [List.map_append, List.sum_append]
    simp only [List.map_cons, List.map_nil, List.sum_cons, List.sum_nil, add_zero]
    have hc := bucket_contribution_nonneg bucket_size s e now k hse
    linarith
  · rw [List.getD_eq_default _ _ (by rw [length_aggregate]; omega),
      List.getD_eq_default _ _ (by rw [length_aggregate]; omega)]

theorem C10_witness :
    (aggregate 1 10 10 [(2, 4)]).getD 0 0 ≤
      (aggregate 1 10 10 ([(2, 4)] ++ [(5, 7)])).getD 0 0 :=
  C10_totals_monotone_under_extension 1 10 10 [(2, 4)]
    (by intro i hi; rw [List.mem_singleton] at hi; rw [hi]; norm_num) 5 7 (by norm_num) 0

end Buildbot
